import Mathlib

/-!
Verification of the qmassa terminal dashboard core: the chart alignment
engine, the navigation state machines, the client identity resolver, the
poll-render-input loop and the JSON persistence sink, shallowly embedded
from src/qmapp.rs and src/app/drm_client_screen.rs.

Machine floating point values (f64) are modelled as rationals: no claim
here depends on rounding, only on which values are selected, copied and
compared, and on guarded divisions.
-/

/-! ## Data model (AppDataClientStats, QmAppDataDeviceState and friends) -/

/-- Per-tick client memory sample (smem/vram, rss and used), one entry of
the mem_info history. -/
structure ClientMemInfo where
  smem_used : Nat
  smem_rss : Nat
  vram_used : Nat
  vram_rss : Nat
deriving DecidableEq

/-- Per-engine stats: the utilization-percentage history of one engine. -/
structure EngStats where
  usage : List ℚ
deriving DecidableEq

/-- Per-client stats as rendered by the screens: identity fields, command
strings, histories. The engine map is kept as an association list from
engine name to stats. -/
structure AppDataClientStats where
  pid : Nat
  comm : String
  cmdline : String
  drm_minor : Nat
  client_id : Nat
  mem_info : List ClientMemInfo
  eng_stats : List (String × EngStats)
  cpu_usage : List ℚ
  is_active : Bool
deriving DecidableEq

/-- Per-tick device memory sample (used and total for smem and vram). -/
structure DevMemInfo where
  smem_used : Nat
  smem_total : Nat
  vram_used : Nat
  vram_total : Nat
deriving DecidableEq

/-- Device state: slot id, device memory history, and the client list. -/
structure QmAppDataDeviceState where
  pci_dev : String
  mem_info : List DevMemInfo
  clis_stats : List AppDataClientStats
deriving DecidableEq

/-- Modelled from the spec: the telemetry store keys each device by a
stable slot identifier and exposes lookup by that key; the lookup itself
lives in the data module that is not under src/. Devices are a list and
get_device finds the entry whose pci_dev equals the requested slot. -/
def get_device (devs : List QmAppDataDeviceState) (pci : String) :
    Option QmAppDataDeviceState :=
  devs.find? (fun d => d.pci_dev == pci)

/-! ## Alignment engine

The zero-padding loop shared by render_meminfo_chart (lines 361-381),
render_engines_chart (lines 440-449) and render_cpu_chart (lines 494-503)
of drm_client_screen.rs: given the x-value axis and one history, pad the
front with zeros and right-align the history. -/

/-- The alignment loop: idx = nr_vals - hist.len() when the history is
shorter than the axis (else 0); points 0..idx carry y = 0, points
idx..nr_vals carry hist[i - idx]. -/
def alignSeries (x_vals : List ℚ) (hist : List ℚ) : List (ℚ × ℚ) :=
  let nr_vals := x_vals.length
  let idx := if hist.length < nr_vals then nr_vals - hist.length else 0
  ((List.range idx).map (fun i => (x_vals.getD i 0, (0 : ℚ))))
    ++ ((List.range (nr_vals - idx)).map
      (fun j => (x_vals.getD (idx + j) 0, hist.getD j 0)))

/-- render_meminfo_chart sm_rss_vals series. -/
def sm_rss_vals (x_vals : List ℚ) (cli : AppDataClientStats) : List (ℚ × ℚ) :=
  alignSeries x_vals (cli.mem_info.map (fun mi => (mi.smem_rss : ℚ)))

/-- render_meminfo_chart sm_used_vals series. -/
def sm_used_vals (x_vals : List ℚ) (cli : AppDataClientStats) : List (ℚ × ℚ) :=
  alignSeries x_vals (cli.mem_info.map (fun mi => (mi.smem_used : ℚ)))

/-- render_meminfo_chart vr_rss_vals series. -/
def vr_rss_vals (x_vals : List ℚ) (cli : AppDataClientStats) : List (ℚ × ℚ) :=
  alignSeries x_vals (cli.mem_info.map (fun mi => (mi.vram_rss : ℚ)))

/-- render_meminfo_chart vr_used_vals series. -/
def vr_used_vals (x_vals : List ℚ) (cli : AppDataClientStats) : List (ℚ × ℚ) :=
  alignSeries x_vals (cli.mem_info.map (fun mi => (mi.vram_used : ℚ)))

/-- render_engines_chart eng_vals: one aligned series per engine entry
(the source iterates engine names in sorted order; sorting permutes which
dataset gets which series but each series is this alignment of its own
usage history). -/
def eng_vals (x_vals : List ℚ) (cli : AppDataClientStats) :
    List (List (ℚ × ℚ)) :=
  cli.eng_stats.map (fun e => alignSeries x_vals e.2.usage)

/-- render_cpu_chart cpu_vals series. -/
def cpu_vals (x_vals : List ℚ) (cli : AppDataClientStats) : List (ℚ × ℚ) :=
  alignSeries x_vals cli.cpu_usage

/-- The claimed shape of an aligned point series, stated in the words of
the spec: exactly N points, the first N-L are (T[i], 0), the remaining L
are (T[i], H[i-(N-L)]) in original order. -/
def alignedPoints (T H : List ℚ) (pts : List (ℚ × ℚ)) : Prop :=
  pts.length = T.length ∧
  (∀ i, i < T.length - H.length →
    pts.getD i (0, 0) = (T.getD i 0, 0)) ∧
  (∀ i, T.length - H.length ≤ i → i < T.length →
    pts.getD i (0, 0) = (T.getD i 0, H.getD (i - (T.length - H.length)) 0))

theorem alignSeries_spec (T H : List ℚ) (hLN : H.length ≤ T.length) :
    alignedPoints T H (alignSeries T H) := by
  have hidx : (if H.length < T.length then T.length - H.length else 0)
      = T.length - H.length := by
    by_cases h : H.length < T.length
    · simp [h]
    · have : T.length - H.length = 0 := by omega
      simp [h, this]
  have hlen : (alignSeries T H).length = T.length := by
    simp only [alignSeries, hidx, List.length_append, List.length_map,
      List.length_range]
    omega
  refine ⟨hlen, ?_, ?_⟩
  · intro i hi
    simp only [alignSeries, hidx]
    rw [List.getD_eq_getElem?_getD, List.getElem?_append]
    simp only [List.length_map, List.length_range]
    rw [if_pos hi, List.getElem?_map, List.getElem?_range hi]
    rfl
  · intro i hge hlt
    simp only [alignSeries, hidx]
    rw [List.getD_eq_getElem?_getD, List.getElem?_append_right
      (by simp only [List.length_map, List.length_range]; omega)]
    simp only [List.length_map, List.length_range]
    rw [List.getElem?_map, List.getElem?_range (by omega)]
    have : T.length - H.length + (i - (T.length - H.length)) = i := by omega
    simp [this]

/-- C1: every chart point series (client memory, per-engine utilization,
and CPU) produced for a history H of length L over a timestamp axis T of
length N with L <= N has exactly N points, the first N-L being (T[i], 0)
and the remaining L being (T[i], H[i-(N-L)]) in original order. -/
theorem chart_series_aligned (T : List ℚ) (cli : AppDataClientStats)
    (hm : cli.mem_info.length ≤ T.length)
    (he : ∀ e ∈ cli.eng_stats, e.2.usage.length ≤ T.length)
    (hc : cli.cpu_usage.length ≤ T.length) :
    alignedPoints T (cli.mem_info.map (fun mi => (mi.smem_rss : ℚ)))
      (sm_rss_vals T cli) ∧
    alignedPoints T (cli.mem_info.map (fun mi => (mi.smem_used : ℚ)))
      (sm_used_vals T cli) ∧
    alignedPoints T (cli.mem_info.map (fun mi => (mi.vram_rss : ℚ)))
      (vr_rss_vals T cli) ∧
    alignedPoints T (cli.mem_info.map (fun mi => (mi.vram_used : ℚ)))
      (vr_used_vals T cli) ∧
    List.Forall₂ (alignedPoints T) (cli.eng_stats.map (fun e => e.2.usage))
      (eng_vals T cli) ∧
    alignedPoints T cli.cpu_usage (cpu_vals T cli) := by
  refine ⟨?_, ?_, ?_, ?_, ?_, ?_⟩
  · exact alignSeries_spec T _ (by simpa using hm)
  · exact alignSeries_spec T _ (by simpa using hm)
  · exact alignSeries_spec T _ (by simpa using hm)
  · exact alignSeries_spec T _ (by simpa using hm)
  · rw [eng_vals, List.forall₂_map_left_iff, List.forall₂_map_right_iff,
      List.forall₂_same]
    exact fun e hme => alignSeries_spec T _ (he e hme)
  · exact alignSeries_spec T _ hc

/-- A concrete one-sample client over a two-tick axis, used to instantiate
theorems with hypotheses. -/
def cliW : AppDataClientStats :=
  { pid := 1234, comm := "gears", cmdline := "/usr/bin/glxgears",
    drm_minor := 128, client_id := 42,
    mem_info := [⟨4096, 2048, 0, 0⟩],
    eng_stats := [("rcs", ⟨[50]⟩)],
    cpu_usage := [85/2],
    is_active := true }

theorem chart_series_aligned_witness :
    alignedPoints [0, 1] (cliW.mem_info.map (fun mi => (mi.smem_rss : ℚ)))
      (sm_rss_vals [0, 1] cliW) ∧
    alignedPoints [0, 1] (cliW.mem_info.map (fun mi => (mi.smem_used : ℚ)))
      (sm_used_vals [0, 1] cliW) ∧
    alignedPoints [0, 1] (cliW.mem_info.map (fun mi => (mi.vram_rss : ℚ)))
      (vr_rss_vals [0, 1] cliW) ∧
    alignedPoints [0, 1] (cliW.mem_info.map (fun mi => (mi.vram_used : ℚ)))
      (vr_used_vals [0, 1] cliW) ∧
    List.Forall₂ (alignedPoints [0, 1])
      (cliW.eng_stats.map (fun e => e.2.usage)) (eng_vals [0, 1] cliW) ∧
    alignedPoints [0, 1] cliW.cpu_usage (cpu_vals [0, 1] cliW) :=
  chart_series_aligned [0, 1] cliW (by decide) (by decide) (by decide)

/-! ## Client chart-category selector (ClientStatsState)

From drm_client_screen.rs lines 46-92 and the per-draw correction at
lines 174-180. -/

def CLIENT_STATS_MEMINFO : Nat := 0
def CLIENT_STATS_ENGINES : Nat := 1
def CLIENT_STATS_CPU : Nat := 2
def CLIENT_STATS_TOTAL : Nat := 3
def CLIENT_STATS_OP_NEXT : Nat := 0
def CLIENT_STATS_OP_PREV : Nat := 1

/-- Selector state: selected category and last navigation direction. -/
structure ClientStatsState where
  sel : Nat
  last_op : Nat
deriving DecidableEq

def ClientStatsState.next (s : ClientStatsState) : ClientStatsState :=
  { sel := (s.sel + 1) % CLIENT_STATS_TOTAL, last_op := CLIENT_STATS_OP_NEXT }

def ClientStatsState.previous (s : ClientStatsState) : ClientStatsState :=
  { sel := if s.sel = 0 then CLIENT_STATS_TOTAL - 1 else s.sel - 1,
    last_op := CLIENT_STATS_OP_PREV }

def ClientStatsState.repeat_op (s : ClientStatsState) : ClientStatsState :=
  if s.last_op = CLIENT_STATS_OP_NEXT then s.next else s.previous

def ClientStatsState.new : ClientStatsState :=
  { sel := CLIENT_STATS_MEMINFO, last_op := CLIENT_STATS_OP_NEXT }

/-- The per-draw correction (draw, lines 174-180): if the selected
category is Engines and the selected client has no engines, reapply the
last direction once. -/
def draw_stats_correction (cli : AppDataClientStats)
    (s : ClientStatsState) : ClientStatsState :=
  if s.sel = CLIENT_STATS_ENGINES ∧ cli.eng_stats.isEmpty then
    s.repeat_op
  else
    s

/-- One next keypress followed by the next draw resolution. -/
def next_then_draw (cli : AppDataClientStats)
    (s : ClientStatsState) : ClientStatsState :=
  draw_stats_correction cli s.next

/-- C2: the category selector cycles MemInfo, Engines, Cpu with period 3;
when the selected client has no engines the draw correction applies the
last direction exactly once, after which the resolved category is never
Engines, and next-then-draw has period 2. -/
theorem client_stats_cycle :
    (ClientStatsState.new.sel = CLIENT_STATS_MEMINFO ∧
     ClientStatsState.new.next.sel = CLIENT_STATS_ENGINES ∧
     ClientStatsState.new.next.next.sel = CLIENT_STATS_CPU ∧
     ClientStatsState.new.next.next.next.sel = CLIENT_STATS_MEMINFO) ∧
    (∀ s : ClientStatsState, s.sel < CLIENT_STATS_TOTAL →
      s.next.next.next.sel = s.sel) ∧
    (∀ (cli : AppDataClientStats) (s : ClientStatsState),
      s.sel = CLIENT_STATS_ENGINES → cli.eng_stats = [] →
      draw_stats_correction cli s = s.repeat_op) ∧
    (∀ (cli : AppDataClientStats) (s : ClientStatsState),
      cli.eng_stats = [] →
      (draw_stats_correction cli s).sel ≠ CLIENT_STATS_ENGINES) ∧
    (∀ (cli : AppDataClientStats) (s : ClientStatsState),
      cli.eng_stats = [] → s.sel < CLIENT_STATS_TOTAL →
      s.sel ≠ CLIENT_STATS_ENGINES →
      (next_then_draw cli (next_then_draw cli s)).sel = s.sel) := by
  refine ⟨⟨rfl, rfl, rfl, rfl⟩, ?_, ?_, ?_, ?_⟩
  · intro s hs
    simp only [ClientStatsState.next, CLIENT_STATS_TOTAL] at *
    omega
  · intro cli s hsel hemp
    simp [draw_stats_correction, hsel, hemp]
  · intro cli s hemp
    by_cases hsel : s.sel = CLIENT_STATS_ENGINES
    · simp only [draw_stats_correction, hsel, hemp, List.isEmpty_nil,
        and_true, if_pos, ClientStatsState.repeat_op]
      by_cases hop : s.last_op = CLIENT_STATS_OP_NEXT
      · simp [hop, ClientStatsState.next, hsel, CLIENT_STATS_ENGINES,
          CLIENT_STATS_TOTAL]
      · simp [hop, ClientStatsState.previous, hsel, CLIENT_STATS_ENGINES,
          CLIENT_STATS_TOTAL]
    · simp [draw_stats_correction, hsel]
  · intro cli s hemp hlt hne
    have hcase : s.sel = 0 ∨ s.sel = 2 := by
      simp only [CLIENT_STATS_TOTAL] at hlt
      simp only [CLIENT_STATS_ENGINES] at hne
      omega
    rcases hcase with h0 | h2
    · simp [next_then_draw, draw_stats_correction, ClientStatsState.next,
        ClientStatsState.repeat_op, ClientStatsState.previous, h0, hemp,
        CLIENT_STATS_ENGINES, CLIENT_STATS_TOTAL, CLIENT_STATS_OP_NEXT]
    · simp [next_then_draw, draw_stats_correction, ClientStatsState.next,
        ClientStatsState.repeat_op, ClientStatsState.previous, h2, hemp,
        CLIENT_STATS_ENGINES, CLIENT_STATS_TOTAL, CLIENT_STATS_OP_NEXT]

theorem client_stats_cycle_witness :
    (ClientStatsState.mk 2 0).next.next.next.sel = 2 ∧
    draw_stats_correction (AppDataClientStats.mk 1 "x" "y" 0 0 [] [] [] true)
      (ClientStatsState.mk 1 0)
      = (ClientStatsState.mk 1 0).repeat_op ∧
    (draw_stats_correction (AppDataClientStats.mk 1 "x" "y" 0 0 [] [] [] true)
      (ClientStatsState.mk 1 0)).sel ≠ CLIENT_STATS_ENGINES ∧
    (next_then_draw (AppDataClientStats.mk 1 "x" "y" 0 0 [] [] [] true)
      (next_then_draw (AppDataClientStats.mk 1 "x" "y" 0 0 [] [] [] true)
        (ClientStatsState.mk 0 1))).sel = 0 :=
  ⟨client_stats_cycle.2.1 (ClientStatsState.mk 2 0) (by decide),
   client_stats_cycle.2.2.1 _ _ (by decide) rfl,
   client_stats_cycle.2.2.2.1 _ _ rfl,
   client_stats_cycle.2.2.2.2 _ _ rfl (by decide) (by decide)⟩

/-! ## Device tab selector (QmDevicesTabState, qmapp.rs lines 27-64) -/

/-- Device tab state: the device slot list and the selected index. -/
structure QmDevicesTabState where
  devs : List String
  sel : Nat
deriving DecidableEq

def QmDevicesTabState.new (devs : List String) : QmDevicesTabState :=
  { devs := devs, sel := 0 }

def QmDevicesTabState.next (s : QmDevicesTabState) : QmDevicesTabState :=
  if s.devs.isEmpty then s
  else { s with sel := (s.sel + 1) % s.devs.length }

def QmDevicesTabState.previous (s : QmDevicesTabState) : QmDevicesTabState :=
  if s.devs.isEmpty then s
  else if s.sel > 0 then { s with sel := s.sel - 1 }
  else { s with sel := s.devs.length - 1 }

theorem tab_next_iterate (k : Nat) (s : QmDevicesTabState)
    (h : s.sel < s.devs.length) :
    QmDevicesTabState.next^[k] s
      = ⟨s.devs, (s.sel + k) % s.devs.length⟩ := by
  induction k with
  | zero =>
    obtain ⟨devs, sel⟩ := s
    simp only [Function.iterate_zero, id_eq, Nat.add_zero]
    simp at h
    simp [Nat.mod_eq_of_lt h]
  | succ k ih =>
    rw [Function.iterate_succ_apply', ih]
    have hne : ¬ s.devs.isEmpty := by
      cases hd : s.devs with
      | nil => rw [hd] at h; simp at h
      | cons a t => simp [hd]
    have hstep : (⟨s.devs, (s.sel + k) % s.devs.length⟩
        : QmDevicesTabState).next
        = ⟨s.devs, ((s.sel + k) % s.devs.length + 1) % s.devs.length⟩ := by
      simp [QmDevicesTabState.next, hne]
    rw [hstep, Nat.mod_add_mod]
    have harg : s.sel + k + 1 = s.sel + (k + 1) := by omega
    rw [harg]

/-- C7: next applied K times to a K-element device list returns to the
starting index, next followed by previous is the identity, and both next
and previous leave the state unchanged when the device list is empty. -/
theorem devices_tab_cycle :
    (∀ s : QmDevicesTabState, s.sel < s.devs.length →
      QmDevicesTabState.next^[s.devs.length] s = s) ∧
    (∀ s : QmDevicesTabState, s.devs = [] →
      QmDevicesTabState.next^[s.devs.length] s = s) ∧
    (∀ s : QmDevicesTabState, s.sel < s.devs.length →
      s.next.previous = s) ∧
    (∀ s : QmDevicesTabState, s.devs = [] →
      s.next = s ∧ s.previous = s) := by
  refine ⟨?_, ?_, ?_, ?_⟩
  · intro s h
    rw [tab_next_iterate _ _ h]
    obtain ⟨devs, sel⟩ := s
    simp only at h ⊢
    rw [Nat.add_mod_right, Nat.mod_eq_of_lt h]
  · intro s h
    simp [h]
  · intro s h
    have hne : ¬ s.devs.isEmpty := by
      cases hd : s.devs with
      | nil => rw [hd] at h; simp at h
      | cons a t => simp [hd]
    obtain ⟨devs, sel⟩ := s
    simp only at h
    simp only [QmDevicesTabState.next, hne, Bool.false_eq_true,
      not_false_iff, if_neg]
    rcases Nat.lt_or_ge (sel + 1) devs.length with hlt | hge
    · simp only [QmDevicesTabState.previous, hne, Bool.false_eq_true,
        not_false_iff, if_neg]
      rw [Nat.mod_eq_of_lt hlt]
      simp
    · have heq : sel + 1 = devs.length := by omega
      simp only [QmDevicesTabState.previous, hne, Bool.false_eq_true,
        not_false_iff, if_neg]
      rw [← heq, Nat.mod_self]
      simp
  · intro s h
    constructor
    · simp [QmDevicesTabState.next, h]
    · simp [QmDevicesTabState.previous, h]

theorem devices_tab_cycle_witness :
    QmDevicesTabState.next^[3] ⟨["card0", "card1", "card2"], 1⟩
      = ⟨["card0", "card1", "card2"], 1⟩ ∧
    (QmDevicesTabState.mk ["card0", "card1"] 1).next.previous
      = QmDevicesTabState.mk ["card0", "card1"] 1 ∧
    (QmDevicesTabState.mk [] 0).next = QmDevicesTabState.mk [] 0 :=
  ⟨devices_tab_cycle.1 ⟨["card0", "card1", "card2"], 1⟩ (by decide),
   devices_tab_cycle.2.2.1 (QmDevicesTabState.mk ["card0", "card1"] 1)
     (by decide),
   (devices_tab_cycle.2.2.2 (QmDevicesTabState.mk [] 0) rfl).1⟩

/-! ## Identity resolver and the two draw paths

From DrmClientScreen::draw (drm_client_screen.rs lines 144-180) and
QmApp::draw (qmapp.rs lines 496-565). -/

/-- The captured client selection (DrmClientSelected). -/
structure DrmClientSelected where
  pci_dev : String
  pid : Nat
  drm_minor : Nat
  client_id : Nat
deriving DecidableEq

/-- The exact tuple test of the scan loop (lines 149-151). -/
def cli_matches_sel (sel : DrmClientSelected)
    (cli : AppDataClientStats) : Bool :=
  cli.pid == sel.pid && cli.drm_minor == sel.drm_minor &&
    cli.client_id == sel.client_id

/-- The linear scan of the device client list (lines 147-154): walk the
list, remembering the last matching client. -/
def find_sel_client (clis : List AppDataClientStats)
    (sel : DrmClientSelected) : Option AppDataClientStats :=
  clis.foldl
    (fun acc cli => if cli_matches_sel sel cli then some cli else acc) none

/-- Outcome of one client-detail draw. -/
inductive ClientDrawOutcome
  | panicked
  | noticeClientGone
  | rendered (cli : AppDataClientStats)
deriving DecidableEq

/-- The selection-relevant control flow of DrmClientScreen::draw (lines
144-180): the device lookup result is unwrapped, so a missing device
panics; a missing client renders the fixed notice and returns early;
otherwise the engines-skip correction runs and the client is rendered.
The returned selection and selector state are the ones stored after the
draw. -/
def DrmClientScreen.draw (devs : List QmAppDataDeviceState)
    (sel : DrmClientSelected) (st : ClientStatsState) :
    ClientDrawOutcome × DrmClientSelected × ClientStatsState :=
  match get_device devs sel.pci_dev with
  | none => (.panicked, sel, st)
  | some di =>
    match find_sel_client di.clis_stats sel with
    | none => (.noticeClientGone, sel, st)
    | some cli => (.rendered cli, sel, draw_stats_correction cli st)

/-- Outcome of one main-screen draw. -/
inductive QmDrawOutcome
  | noDevicesNotice
  | deviceMissingNotice (dn : String)
  | rendered (d : QmAppDataDeviceState)
deriving DecidableEq

/-- The device-selection control flow of QmApp::draw (qmapp.rs lines
496-565): initialize the tab state on first draw (from the device-slot
filter argument, else from the device list), render the no-devices notice
when the tab list is empty, otherwise look up the selected slot and
render either the device or the fixed missing-device notice. The
returned tab state is the one stored after the draw. -/
def QmApp.draw (devs : List QmAppDataDeviceState) (dev_slot : Option String)
    (tab_state : Option QmDevicesTabState) :
    QmDrawOutcome × QmDevicesTabState :=
  let ts := match tab_state with
    | some ts => ts
    | none =>
      QmDevicesTabState.new (match dev_slot with
        | some pdev => [pdev]
        | none => devs.map (fun d => d.pci_dev))
  if ts.devs.isEmpty then (.noDevicesNotice, ts)
  else
    let dn := ts.devs.getD ts.sel ""
    match get_device devs dn with
    | some dinfo => (.rendered dinfo, ts)
    | none => (.deviceMissingNotice dn, ts)

theorem find_sel_client_of_no_match (sel : DrmClientSelected) :
    ∀ (l : List AppDataClientStats) (acc : Option AppDataClientStats),
    (∀ x ∈ l, cli_matches_sel sel x = false) →
    l.foldl
      (fun acc cli => if cli_matches_sel sel cli then some cli else acc) acc
      = acc := by
  intro l
  induction l with
  | nil => intro acc _; rfl
  | cons a t ih =>
    intro acc hall
    have ha := hall a (by simp)
    simp only [List.foldl_cons, ha, Bool.false_eq_true, if_false]
    exact ih acc (fun x hx => hall x (by simp [hx]))

theorem find_sel_client_keeps (sel : DrmClientSelected)
    (c : AppDataClientStats) :
    ∀ (l : List AppDataClientStats),
    (∀ x ∈ l, cli_matches_sel sel x = true → x = c) →
    l.foldl
      (fun acc cli => if cli_matches_sel sel cli then some cli else acc)
      (some c) = some c := by
  intro l
  induction l with
  | nil => intro _; rfl
  | cons a t ih =>
    intro hall
    by_cases ha : cli_matches_sel sel a = true
    · have hac : a = c := hall a (by simp) ha
      subst hac
      simp only [List.foldl_cons, ha, if_true]
      exact ih (fun x hx h => hall x (by simp [hx]) h)
    · simp only [List.foldl_cons, ha, if_false]
      exact ih (fun x hx h => hall x (by simp [hx]) h)

theorem find_sel_client_unique (clis : List AppDataClientStats)
    (sel : DrmClientSelected) (c : AppDataClientStats)
    (hmem : c ∈ clis) (hc : cli_matches_sel sel c = true)
    (huniq : ∀ x ∈ clis, cli_matches_sel sel x = true → x = c) :
    find_sel_client clis sel = some c := by
  induction clis with
  | nil => cases hmem
  | cons a t ih =>
    by_cases ha : cli_matches_sel sel a = true
    · have hac : a = c := huniq a (by simp) ha
      subst hac
      simp only [find_sel_client, List.foldl_cons, ha, if_true]
      exact find_sel_client_keeps sel a t
        (fun x hx h => huniq x (by simp [hx]) h)
    · have hct : c ∈ t := by
        cases hmem with
        | head => exact absurd hc ha
        | tail _ h => exact h
      have := ih hct (fun x hx h => huniq x (by simp [hx]) h)
      simpa [find_sel_client, ha] using this

/-- C5: on every client-detail draw, the linear scan over the device
client list returns the unique live match of the captured tuple when one
exists (identity keys being unique within a device client list); when no
client matches, the scan returns none, the fixed notice outcome is
produced and the stored selection and selector state are unchanged. -/
theorem identity_lookup_draw :
    (∀ (clis : List AppDataClientStats) (sel : DrmClientSelected)
       (c : AppDataClientStats), c ∈ clis →
       cli_matches_sel sel c = true →
       (∀ x ∈ clis, cli_matches_sel sel x = true → x = c) →
       find_sel_client clis sel = some c) ∧
    (∀ (clis : List AppDataClientStats) (sel : DrmClientSelected),
       (∀ x ∈ clis, cli_matches_sel sel x = false) →
       find_sel_client clis sel = none) ∧
    (∀ (devs : List QmAppDataDeviceState) (sel : DrmClientSelected)
       (st : ClientStatsState) (di : QmAppDataDeviceState),
       get_device devs sel.pci_dev = some di →
       find_sel_client di.clis_stats sel = none →
       DrmClientScreen.draw devs sel st
         = (ClientDrawOutcome.noticeClientGone, sel, st)) := by
  refine ⟨find_sel_client_unique, ?_, ?_⟩
  · intro clis sel hall
    exact find_sel_client_of_no_match sel clis none hall
  · intro devs sel st di hdev hfind
    simp [DrmClientScreen.draw, hdev, hfind]

theorem identity_lookup_draw_witness :
    find_sel_client [cliW] ⟨"0000:00:02.0", 1234, 128, 42⟩ = some cliW ∧
    find_sel_client [] ⟨"0000:00:02.0", 1234, 128, 42⟩ = none ∧
    DrmClientScreen.draw [⟨"0000:00:02.0", [], []⟩]
      ⟨"0000:00:02.0", 1234, 128, 42⟩ ClientStatsState.new
      = (ClientDrawOutcome.noticeClientGone,
         ⟨"0000:00:02.0", 1234, 128, 42⟩, ClientStatsState.new) :=
  ⟨identity_lookup_draw.1 [cliW] _ cliW (by simp) (by decide)
     (by intro x hx _; simpa using hx),
   identity_lookup_draw.2.1 [] _ (by intro x hx; cases hx),
   identity_lookup_draw.2.2 [⟨"0000:00:02.0", [], []⟩] _
     ClientStatsState.new ⟨"0000:00:02.0", [], []⟩ (by decide) (by decide)⟩

/-- C4 (amended): a previously selected device or client absent from the
latest snapshot never reassigns the stored selection, and is rendered as
a fixed in-UI notice without aborting in the main-screen draw (missing
device, or empty device list) and in the client-detail draw (missing
client); but a missing device during the client-detail draw is unwrapped
and panics instead of producing a notice. -/
theorem soft_absence_amended :
    (∀ (devs : List QmAppDataDeviceState) (slot : Option String)
       (ts : QmDevicesTabState), ts.devs = [] →
       QmApp.draw devs slot (some ts) = (QmDrawOutcome.noDevicesNotice, ts)) ∧
    (∀ (devs : List QmAppDataDeviceState) (slot : Option String)
       (ts : QmDevicesTabState), ts.devs ≠ [] →
       get_device devs (ts.devs.getD ts.sel "") = none →
       QmApp.draw devs slot (some ts)
         = (QmDrawOutcome.deviceMissingNotice (ts.devs.getD ts.sel ""), ts)) ∧
    (∀ (devs : List QmAppDataDeviceState) (sel : DrmClientSelected)
       (st : ClientStatsState) (di : QmAppDataDeviceState),
       get_device devs sel.pci_dev = some di →
       find_sel_client di.clis_stats sel = none →
       DrmClientScreen.draw devs sel st
         = (ClientDrawOutcome.noticeClientGone, sel, st)) ∧
    (∀ (devs : List QmAppDataDeviceState) (sel : DrmClientSelected)
       (st : ClientStatsState),
       get_device devs sel.pci_dev = none →
       DrmClientScreen.draw devs sel st
         = (ClientDrawOutcome.panicked, sel, st)) := by
  refine ⟨?_, ?_, ?_, ?_⟩
  · intro devs slot ts hts
    simp [QmApp.draw, hts]
  · intro devs slot ts hts hdev
    have hne : ts.devs.isEmpty = false := by
      cases hd : ts.devs with
      | nil => exact absurd hd hts
      | cons a t => simp [hd]
    rw [List.getD_eq_getElem?_getD] at hdev
    simp [QmApp.draw, hne, hdev]
  · intro devs sel st di hdev hfind
    simp [DrmClientScreen.draw, hdev, hfind]
  · intro devs sel st hdev
    simp [DrmClientScreen.draw, hdev]

theorem soft_absence_amended_witness :
    QmApp.draw [] none (some (QmDevicesTabState.mk [] 0))
      = (QmDrawOutcome.noDevicesNotice, QmDevicesTabState.mk [] 0) ∧
    QmApp.draw [] none (some (QmDevicesTabState.mk ["card0"] 0))
      = (QmDrawOutcome.deviceMissingNotice "card0",
         QmDevicesTabState.mk ["card0"] 0) ∧
    DrmClientScreen.draw [⟨"card0", [], []⟩] ⟨"card0", 7, 226, 3⟩
      ClientStatsState.new
      = (ClientDrawOutcome.noticeClientGone, ⟨"card0", 7, 226, 3⟩,
         ClientStatsState.new) ∧
    DrmClientScreen.draw [] ⟨"card0", 7, 226, 3⟩ ClientStatsState.new
      = (ClientDrawOutcome.panicked, ⟨"card0", 7, 226, 3⟩,
         ClientStatsState.new) :=
  ⟨soft_absence_amended.1 [] none (QmDevicesTabState.mk [] 0) rfl,
   soft_absence_amended.2.1 [] none (QmDevicesTabState.mk ["card0"] 0)
     (by decide) rfl,
   soft_absence_amended.2.2.1 [⟨"card0", [], []⟩] ⟨"card0", 7, 226, 3⟩
     ClientStatsState.new ⟨"card0", [], []⟩ (by decide) rfl,
   soft_absence_amended.2.2.2 [] ⟨"card0", 7, 226, 3⟩
     ClientStatsState.new rfl⟩

/-- C4 counterexample: at a concrete draw of the client-detail screen
whose selected device is absent from the snapshot, the draw outcome is a
panic (the device lookup is unwrapped), not an in-UI notice — refuting
the claim that an absent device never aborts the loop on every draw. -/
theorem soft_absence_counterexample :
    (DrmClientScreen.draw [] ⟨"0000:03:00.0", 42, 226, 7⟩
       ClientStatsState.new).1 = ClientDrawOutcome.panicked ∧
    ClientDrawOutcome.panicked ≠ ClientDrawOutcome.noticeClientGone := by
  constructor
  · rfl
  · intro h
    cases h

/-! ## X-axis bounds and labels

From DrmClientScreen::render_chart (drm_client_screen.rs lines 537-568)
and QmApp::render_dev_stats (qmapp.rs lines 252-275). -/

/-- The bounds and label values handed to the chart x axis. -/
structure XAxisSpec where
  bounds : ℚ × ℚ
  labels : List ℚ
deriving DecidableEq

/-- X-axis construction of render_chart: x values are the shared
timestamps (ms) divided by 1000; a single point synthesizes the upper
bound from the configured tick interval (ms_interval over 1000). -/
def render_chart_xaxis (ms_interval : Nat) (tstamps : List Nat) :
    XAxisSpec :=
  let x_vals := tstamps.map (fun (t : Nat) => (t : ℚ) / 1000)
  if x_vals.length = 1 then
    let int_secs : ℚ := (ms_interval : ℚ) / 1000
    let b0 := x_vals.getD 0 0
    { bounds := (b0, b0 + int_secs), labels := [b0, b0 + int_secs] }
  else
    let xvlen := x_vals.length
    { bounds := (x_vals.getD 0 0, x_vals.getD (xvlen - 1) 0),
      labels := [x_vals.getD 0 0, x_vals.getD (xvlen / 2) 0]
        ++ (if 3 ≤ xvlen then [x_vals.getD (xvlen - 1) 0] else []) }

/-- X-axis construction of render_dev_stats: identical to render_chart
except that a single point synthesizes the upper bound with the constant
2.0 seconds (qmapp.rs line 260), not the configured tick interval. -/
def render_dev_stats_xaxis (tstamps : List Nat) : XAxisSpec :=
  let x_vals := tstamps.map (fun (t : Nat) => (t : ℚ) / 1000)
  if x_vals.length = 1 then
    let b0 := x_vals.getD 0 0
    { bounds := (b0, b0 + 2), labels := [b0, b0 + 2] }
  else
    let xvlen := x_vals.length
    { bounds := (x_vals.getD 0 0, x_vals.getD (xvlen - 1) 0),
      labels := [x_vals.getD 0 0, x_vals.getD (xvlen / 2) 0]
        ++ (if 3 ≤ xvlen then [x_vals.getD (xvlen - 1) 0] else []) }

/-- The x-axis policy in the words of the claim, for a given synthesized
single-point width tick_secs (the configured tick interval in seconds):
one point gives bounds [t0, t0 + tick_secs] with exactly two labels;
two or more give bounds [t0, t_last] with labels at start and midpoint
and an end label exactly when three or more points exist. -/
def XAxisClaimHolds (tick_secs : ℚ) (axis : List Nat → XAxisSpec)
    (tstamps : List Nat) : Prop :=
  let x := tstamps.map (fun (t : Nat) => (t : ℚ) / 1000)
  let n := tstamps.length
  let a := axis tstamps
  (n = 1 → a.bounds = (x.getD 0 0, x.getD 0 0 + tick_secs) ∧
    a.labels.length = 2) ∧
  (2 ≤ n → a.bounds = (x.getD 0 0, x.getD (n - 1) 0) ∧
    a.labels = [x.getD 0 0, x.getD (n / 2) 0]
      ++ (if 3 ≤ n then [x.getD (n - 1) 0] else []))

/-- C3 (amended): the client-detail charts follow the claimed x-axis
policy with the configured tick interval; the device stats chart follows
it only with the hardcoded width of 2 seconds, regardless of the
configured interval. -/
theorem xaxis_policy_amended :
    (∀ (ms_interval : Nat) (tstamps : List Nat),
      XAxisClaimHolds ((ms_interval : ℚ) / 1000)
        (render_chart_xaxis ms_interval) tstamps) ∧
    (∀ tstamps : List Nat,
      XAxisClaimHolds 2 render_dev_stats_xaxis tstamps) := by
  constructor
  · intro ms ts
    constructor
    · intro h1
      simp [render_chart_xaxis, List.length_map, h1]
    · intro h2
      have hne : ¬ (ts.length = 1) := by omega
      simp [render_chart_xaxis, List.length_map, hne]
  · intro ts
    constructor
    · intro h1
      simp [render_dev_stats_xaxis, List.length_map, h1]
    · intro h2
      have hne : ¬ (ts.length = 1) := by omega
      simp [render_dev_stats_xaxis, List.length_map, hne]

theorem xaxis_policy_amended_witness :
    XAxisClaimHolds ((1000 : ℚ) / 1000) (render_chart_xaxis 1000) [5] ∧
    XAxisClaimHolds 2 render_dev_stats_xaxis [5, 7] :=
  ⟨xaxis_policy_amended.1 1000 [5], xaxis_policy_amended.2 [5, 7]⟩

/-- C3 counterexample: with a configured tick interval of 1000 ms (one
second) and a single-timestamp axis, the device stats chart synthesizes
the upper bound t0 + 2, not t0 + the configured tick interval — refuting
the claim for that chart. -/
theorem xaxis_policy_counterexample :
    ¬ XAxisClaimHolds 1 render_dev_stats_xaxis [0] := by
  intro h
  have hb := (h.1 rfl).1
  have hbv : (render_dev_stats_xaxis [0]).bounds = (0, 2) := by
    simp [render_dev_stats_xaxis]
  rw [hbv] at hb
  simp at hb

/-! ## JSON persistence sink (QmApp::do_run, qmapp.rs lines 623-646)

The sink file is modelled at the byte level: a character list plus the
current write position. A write overwrites in place from the position and
extends the file at the end, as writes on a file descriptor do. -/

/-- Sink file state: contents and write position. -/
structure JsonFile where
  contents : List Char
  pos : Nat
deriving DecidableEq

/-- Write s at the current position: overwrite, extend past the end. -/
def JsonFile.write (f : JsonFile) (s : List Char) : JsonFile :=
  { contents := f.contents.take f.pos ++ s
      ++ f.contents.drop (f.pos + s.length),
    pos := f.pos + s.length }

/-- seek(SeekFrom::End(-off)). -/
def JsonFile.seekEndMinus (f : JsonFile) (off : Nat) : JsonFile :=
  { f with pos := f.contents.length - off }

/-- File::create followed by writeln of the empty array marker (lines
625-628): the file becomes the four bytes of an empty JSON array. -/
def json_file_init : JsonFile :=
  JsonFile.write { contents := [], pos := 0 } ('[':: '\n':: ']':: '\n'::[])

/-- One tick's append (lines 638-646): seek to two bytes before the end
(just before the closing bracket line), write a separating comma line
unless this is the first element, write the serialized snapshot, and
rewrite the closing bracket line. -/
def json_append_tick (f : JsonFile) (nr : Nat) (elem : List Char) :
    JsonFile :=
  let f1 := f.seekEndMinus 2
  let f2 := if 1 ≤ nr then f1.write (',':: '\n'::[]) else f1
  let f3 := f2.write elem
  f3.write ('\n':: ']':: '\n'::[])

/-- The appends performed by the run loop: one per tick, with the tick
counter nr advancing. -/
def json_run (f : JsonFile) (nr : Nat) : List (List Char) → JsonFile
  | [] => f
  | e :: rest => json_run (json_append_tick f nr e) (nr + 1) rest

/-- The sink file after the init plus one append per element. -/
def json_file_after (elems : List (List Char)) : JsonFile :=
  json_run json_file_init 0 elems

/-- Comma-line-separated concatenation of pre-serialized elements. -/
def json_body : List (List Char) → List Char
  | [] => []
  | [e] => e
  | e :: f :: rest => e ++ ('\n':: ',':: '\n'::[]) ++ json_body (f :: rest)

/-- The canonical byte form of a single JSON array holding the given
pre-serialized elements in order. -/
def json_array_rendering (elems : List (List Char)) : List Char :=
  match elems with
  | [] => '[':: '\n':: ']':: '\n'::[]
  | _ => '[':: '\n'::[] ++ json_body elems ++ ('\n':: ']':: '\n'::[])

theorem JsonFile.write_at (P tail s : List Char) :
    JsonFile.write ⟨P ++ tail, P.length⟩ s
      = ⟨P ++ (s ++ tail.drop s.length), P.length + s.length⟩ := by
  unfold JsonFile.write
  refine congrArg₂ JsonFile.mk ?_ rfl
  show (P ++ tail).take P.length ++ s
      ++ (P ++ tail).drop (P.length + s.length)
    = P ++ (s ++ tail.drop s.length)
  rw [List.take_left, ← List.drop_drop, List.drop_left, List.append_assoc]

theorem json_append_tick_contents (f : JsonFile) (nr : Nat)
    (e P : List Char) (hf : f.contents = P ++ (']':: '\n'::[])) :
    (json_append_tick f nr e).contents
      = ((P ++ (if 1 ≤ nr then (',':: '\n'::[]) else [])) ++ e)
        ++ ('\n':: ']':: '\n'::[]) := by
  obtain ⟨C, p⟩ := f
  simp only at hf
  subst hf
  have hseek : (JsonFile.mk (P ++ (']':: '\n'::[])) p).seekEndMinus 2
      = ⟨P ++ (']':: '\n'::[]), P.length⟩ := by
    simp [JsonFile.seekEndMinus]
  by_cases hnr : 1 ≤ nr
  · simp only [json_append_tick, hseek, if_pos hnr]
    rw [JsonFile.write_at]
    have hc1 : ((',':: '\n'::[]) ++ (']':: '\n'::[]).drop 2) = ',':: '\n'::[] :=
      rfl
    rw [show ((',':: '\n'::[]) : List Char).length = 2 from rfl, hc1]
    have hre : (JsonFile.mk (P ++ (',':: '\n'::[])) (P.length + 2))
        = ⟨(P ++ (',':: '\n'::[])) ++ [], (P ++ (',':: '\n'::[])).length⟩ := by
      simp
    rw [hre, JsonFile.write_at]
    have hre2 : (JsonFile.mk
        ((P ++ (',':: '\n'::[])) ++ (e ++ List.drop e.length []))
        ((P ++ (',':: '\n'::[])).length + e.length))
        = ⟨((P ++ (',':: '\n'::[])) ++ e) ++ [],
           ((P ++ (',':: '\n'::[])) ++ e).length⟩ := by
      refine congrArg₂ JsonFile.mk ?_ ?_
      · simp
      · simp [List.length_append]
        omega
    rw [hre2, JsonFile.write_at]
    simp
  · simp only [json_append_tick, hseek, if_neg hnr]
    rw [JsonFile.write_at]
    have hre : (JsonFile.mk (P ++ (e ++ (']':: '\n'::[]).drop e.length))
        (P.length + e.length))
        = ⟨(P ++ e) ++ (']':: '\n'::[]).drop e.length, (P ++ e).length⟩ := by
      simp
    rw [hre, JsonFile.write_at]
    have hdrop : ((']':: '\n'::[]).drop e.length).drop
        (('\n':: ']':: '\n'::[]) : List Char).length = [] := by
      apply List.drop_eq_nil_of_le
      simp [List.length_drop]
      omega
    rw [hdrop]
    simp

theorem json_body_append (e : List Char) :
    ∀ (l : List (List Char)), l ≠ [] →
    json_body (l ++ [e]) = json_body l ++ ('\n':: ',':: '\n'::[]) ++ e := by
  intro l
  induction l with
  | nil => intro h; exact absurd rfl h
  | cons a t ih =>
    intro _
    cases t with
    | nil => simp [json_body]
    | cons b u =>
      have hrec := ih (by simp)
      simp only [List.cons_append, json_body, List.append_eq] at hrec ⊢
      rw [hrec]
      simp [List.append_assoc]

theorem json_array_rendering_split :
    ∀ (l : List (List Char)),
    json_array_rendering l
      = (if l = [] then ('[':: '\n'::[])
         else ('[':: '\n'::[]) ++ json_body l ++ ('\n'::[]))
        ++ (']':: '\n'::[]) := by
  intro l
  cases l with
  | nil => rfl
  | cons a t => simp [json_array_rendering]

theorem json_run_rendering (rest : List (List Char)) :
    ∀ (done : List (List Char)) (f : JsonFile),
    f.contents = json_array_rendering done →
    (json_run f done.length rest).contents
      = json_array_rendering (done ++ rest) := by
  induction rest with
  | nil => intro done f hf; simpa [json_run] using hf
  | cons e rs ih =>
    intro done f hf
    have hstep : (json_append_tick f done.length e).contents
        = json_array_rendering (done ++ [e]) := by
      cases done with
      | nil =>
        have hz := json_append_tick_contents f 0 e ('[':: '\n'::[])
          (by simpa [json_array_rendering] using hf)
        simp only [List.length_nil] at hz ⊢
        rw [hz]
        simp [json_array_rendering, json_body]
      | cons d ds =>
        have hsplit := json_array_rendering_split (d :: ds)
        simp only [if_neg (by simp : ¬ (d :: ds = ([] : List (List Char))))]
          at hsplit
        have hz := json_append_tick_contents f (d :: ds).length e
          (('[':: '\n'::[]) ++ json_body (d :: ds) ++ ('\n'::[]))
          (by rw [hf, hsplit])
        rw [hz]
        have hone : 1 ≤ (d :: ds).length := by simp
        rw [if_pos hone]
        rw [json_array_rendering_split ((d :: ds) ++ [e]),
          if_neg (by simp : ¬ ((d :: ds) ++ [e] = ([] : List (List Char))))]
        rw [json_body_append e (d :: ds) (by simp)]
        simp [List.append_assoc]
    have hlen : (done ++ [e]).length = done.length + 1 := by
      simp [List.length_append]
    have hres := ih (done ++ [e]) (json_append_tick f done.length e)
      (by rw [hstep])
    rw [hlen] at hres
    simpa [json_run, List.append_assoc] using hres

/-- C6: after the init and one append per completed tick, the sink file
is exactly the canonical byte form of one JSON array whose elements are
the serialized snapshots of all ticks completed so far, in tick order:
the empty array after zero ticks, and otherwise an open bracket line, the
elements separated by comma lines, and a closing bracket line. Since the
equation holds after every prefix of appends, an abrupt stop between
ticks leaves the file a complete array of the ticks completed so far. -/
theorem json_sink_array (elems : List (List Char)) :
    (json_file_after elems).contents = json_array_rendering elems := by
  have hrun := json_run_rendering elems [] json_file_init rfl
  simpa [json_file_after] using hrun

/-! ## Poll-render-input loop (QmApp::do_run, qmapp.rs lines 617-655)

The loop keeps an exit flag and an iteration counter nr; each iteration
first checks the flag, then the budget, then runs the tick body (refresh,
optional sink append, draw) and handles at most one polled key-press
event, which can set the exit flag (handle_key_event, lines 567-600;
handle_events, lines 602-615; non-press events are ignored). The embedding
counts body executions, unfolding at most fuel iterations. -/

/-- The key codes the app reacts to. -/
inductive KeyCode
  | charKey (c : Char)
  | tab
  | backTab
  | arrowRight
  | arrowLeft
  | arrowUp
  | arrowDown
  | other
deriving DecidableEq

/-- Whether handle_key_event sets the exit flag for this key (qmapp.rs
lines 569-571): the q and Q character keys. -/
def isQuitKey : KeyCode → Bool
  | .charKey c => c == 'q' || c == 'Q'
  | _ => false

/-- Body-execution count of do_run from a given exit flag and counter,
with the key-press event polled at each iteration given by events. -/
def do_run_count (events : Int → Option KeyCode) (max_iterations : Int) :
    Nat → Bool → Int → Nat
  | 0, _, _ => 0
  | fuel + 1, ex, nr =>
    if ex then 0
    else if 0 ≤ max_iterations ∧ nr = max_iterations then 0
    else
      let ex2 := match events nr with
        | some k => isQuitKey k
        | none => false
      1 + do_run_count events max_iterations fuel ex2 (nr + 1)

/-- An input schedule pressing q exactly at iteration k. -/
def quit_at (k : Int) : Int → Option KeyCode :=
  fun i => if i = k then some (KeyCode.charKey 'q') else none

theorem do_run_count_exit (events : Int → Option KeyCode) (n : Int) :
    ∀ (fuel : Nat) (nr : Int), do_run_count events n fuel true nr = 0 := by
  intro fuel nr
  cases fuel <;> simp [do_run_count]

theorem do_run_count_noquit (n : Int) :
    ∀ (fuel : Nat) (nr : Int), 0 ≤ n → 0 ≤ nr → nr ≤ n →
    (n - nr).toNat < fuel →
    do_run_count (fun _ => none) n fuel false nr = (n - nr).toNat := by
  intro fuel
  induction fuel with
  | zero => intro nr _ _ _ h; omega
  | succ fuel ih =>
    intro nr hn hnr hle hfuel
    by_cases heq : nr = n
    · subst heq
      simp [do_run_count, hn]
    · have hcond : ¬ (0 ≤ n ∧ nr = n) := by omega
      have hrec := ih (nr + 1) hn (by omega) (by omega) (by omega)
      simp only [do_run_count, if_neg hcond, Bool.false_eq_true, if_false,
        hrec]
      omega

theorem do_run_count_unbounded (n : Int) (hn : n < 0) :
    ∀ (fuel : Nat) (nr : Int),
    do_run_count (fun _ => none) n fuel false nr = fuel := by
  intro fuel
  induction fuel with
  | zero => intro nr; rfl
  | succ fuel ih =>
    intro nr
    have hcond : ¬ (0 ≤ n ∧ nr = n) := by omega
    simp only [do_run_count, if_neg hcond, Bool.false_eq_true, if_false,
      ih (nr + 1)]
    omega

theorem do_run_count_quit (n k : Int) :
    ∀ (fuel : Nat) (nr : Int), 0 ≤ nr → nr ≤ k → (0 ≤ n → k < n) →
    (k - nr).toNat < fuel →
    do_run_count (quit_at k) n fuel false nr = (k - nr).toNat + 1 := by
  intro fuel
  induction fuel with
  | zero => intro nr _ _ _ h; omega
  | succ fuel ih =>
    intro nr hnr hk hkn hfuel
    have hcond : ¬ (0 ≤ n ∧ nr = n) := by
      by_cases h0 : (0 : Int) ≤ n
      · have := hkn h0
        omega
      · omega
    by_cases hek : nr = k
    · subst hek
      simp only [do_run_count, if_neg hcond, Bool.false_eq_true, if_false,
        quit_at, if_pos rfl]
      simp [isQuitKey, do_run_count_exit]
    · have hrec := ih (nr + 1) (by omega) (by omega) hkn (by omega)
      simp only [do_run_count, if_neg hcond, Bool.false_eq_true, if_false,
        quit_at, if_neg hek, hrec]
      omega

/-- C8: with no quit keypress, a non-negative budget n runs the body
exactly n times and then exits; a negative budget never triggers the
budget exit (the count equals the whole fuel, for every fuel); and a quit
key pressed during iteration k ends the loop after k + 1 body
executions. -/
theorem run_loop_exit :
    (∀ (n : Int) (fuel : Nat), 0 ≤ n → n.toNat < fuel →
      do_run_count (fun _ => none) n fuel false 0 = n.toNat) ∧
    (∀ (n : Int) (fuel : Nat), n < 0 →
      do_run_count (fun _ => none) n fuel false 0 = fuel) ∧
    (∀ (n k : Int) (fuel : Nat), 0 ≤ k → (0 ≤ n → k < n) →
      k.toNat < fuel →
      do_run_count (quit_at k) n fuel false 0 = k.toNat + 1) := by
  refine ⟨?_, ?_, ?_⟩
  · intro n fuel hn hfuel
    have := do_run_count_noquit n fuel 0 hn le_rfl hn (by simpa using hfuel)
    simpa using this
  · intro n fuel hn
    exact do_run_count_unbounded n hn fuel 0
  · intro n k fuel hk hkn hfuel
    have := do_run_count_quit n k fuel 0 le_rfl hk hkn (by simpa using hfuel)
    simpa using this

theorem run_loop_exit_witness :
    do_run_count (fun _ => none) 3 5 false 0 = 3 ∧
    do_run_count (fun _ => none) (-1) 4 false 0 = 4 ∧
    do_run_count (quit_at 1) 5 9 false 0 = 2 := by
  refine ⟨?_, ?_, ?_⟩
  · have := run_loop_exit.1 3 5 (by decide) (by decide)
    simpa using this
  · exact run_loop_exit.2.1 (-1) 4 (by decide)
  · have := run_loop_exit.2.2 5 1 9 (by decide) (by decide) (by decide)
    simpa using this

/-! ## Latest-sample reads during rendering

Each read below is a back() or last() call the source unwraps, commented
there as always present. -/

/-- The per-engine back() reads of the engines loop: none when any engine
history is empty. -/
def engines_latest : List (String × EngStats) → Option (List ℚ)
  | [] => some []
  | e :: rest =>
    match e.2.usage.getLast?, engines_latest rest with
    | some u, some us => some (u :: us)
    | _, _ => none

/-- The latest-sample reads of render_stats_table (drm_client_screen.rs
lines 314-342): mem_info.back(), each engine usage.back() and
cpu_usage.back(). -/
def render_stats_table_reads (cli : AppDataClientStats) :
    Option (ClientMemInfo × List ℚ × ℚ) :=
  match cli.mem_info.getLast?, engines_latest cli.eng_stats,
      cli.cpu_usage.getLast? with
  | some mi, some engs, some cpu => some (mi, engs, cpu)
  | _, _, _ => none

/-- client_pidmem (qmapp.rs lines 99-119): mem_info.last(). -/
def client_pidmem_read (cli : AppDataClientStats) : Option ClientMemInfo :=
  cli.mem_info.getLast?

/-- render_client_engines (qmapp.rs lines 121-150): usage.last() per
engine. -/
def render_client_engines_reads (cli : AppDataClientStats) :
    Option (List ℚ) :=
  engines_latest cli.eng_stats

/-- render_dev_stats (qmapp.rs line 217): device mem_info.last(). -/
def render_dev_stats_read (d : QmAppDataDeviceState) : Option DevMemInfo :=
  d.mem_info.getLast?

theorem engines_latest_isSome :
    ∀ (l : List (String × EngStats)),
    (∀ e ∈ l, e.2.usage ≠ []) → (engines_latest l).isSome = true := by
  intro l
  induction l with
  | nil => intro _; rfl
  | cons a t ih =>
    intro hall
    have ha : a.2.usage.getLast?.isSome = true :=
      List.getLast?_isSome.mpr (hall a (by simp))
    have ht := ih (fun e he => hall e (by simp [he]))
    obtain ⟨u, hu⟩ := Option.isSome_iff_exists.mp ha
    obtain ⟨us, hus⟩ := Option.isSome_iff_exists.mp ht
    simp [engines_latest, hu, hus]

/-- C9: under the invariant that every listed history holds at least one
sample, every latest-sample read performed during rendering succeeds: the
empty-history branch of each read is unreachable. -/
theorem render_reads_total :
    (∀ cli : AppDataClientStats, cli.mem_info ≠ [] →
      (∀ e ∈ cli.eng_stats, e.2.usage ≠ []) → cli.cpu_usage ≠ [] →
      (render_stats_table_reads cli).isSome = true ∧
      (client_pidmem_read cli).isSome = true ∧
      (render_client_engines_reads cli).isSome = true) ∧
    (∀ d : QmAppDataDeviceState, d.mem_info ≠ [] →
      (render_dev_stats_read d).isSome = true) := by
  constructor
  · intro cli hm he hc
    have hm1 : cli.mem_info.getLast?.isSome = true :=
      List.getLast?_isSome.mpr hm
    have hc1 : cli.cpu_usage.getLast?.isSome = true :=
      List.getLast?_isSome.mpr hc
    have he1 := engines_latest_isSome cli.eng_stats he
    obtain ⟨mi, hmi⟩ := Option.isSome_iff_exists.mp hm1
    obtain ⟨cpu, hcpu⟩ := Option.isSome_iff_exists.mp hc1
    obtain ⟨engs, hengs⟩ := Option.isSome_iff_exists.mp he1
    refine ⟨?_, ?_, ?_⟩
    · simp [render_stats_table_reads, hmi, hcpu, hengs]
    · simp [client_pidmem_read, hmi]
    · simp [render_client_engines_reads, hengs]
  · intro d hd
    exact List.getLast?_isSome.mpr hd

theorem render_reads_total_witness :
    (render_stats_table_reads cliW).isSome = true ∧
    (render_dev_stats_read ⟨"card0", [⟨512, 1024, 0, 256⟩], []⟩).isSome
      = true :=
  ⟨((render_reads_total.1 cliW (by decide) (by decide) (by decide)).1),
   render_reads_total.2 ⟨"card0", [⟨512, 1024, 0, 256⟩], []⟩ (by decide)⟩

/-! ## Memory gauge ratios

From render_dev_stats (qmapp.rs lines 220-231) and render_stats_table
(drm_client_screen.rs lines 315-326): each gauge ratio divides only under
a positive-denominator guard and is 0.0 otherwise. -/

/-- Device SMEM gauge: used over total. -/
def dev_smem_ratio (mi : DevMemInfo) : ℚ :=
  if mi.smem_total > 0 then (mi.smem_used : ℚ) / (mi.smem_total : ℚ) else 0

/-- Device VRAM gauge: used over total. -/
def dev_vram_ratio (mi : DevMemInfo) : ℚ :=
  if mi.vram_total > 0 then (mi.vram_used : ℚ) / (mi.vram_total : ℚ) else 0

/-- Client SMEM gauge: rss over used. -/
def cli_smem_ratio (mi : ClientMemInfo) : ℚ :=
  if mi.smem_used > 0 then (mi.smem_rss : ℚ) / (mi.smem_used : ℚ) else 0

/-- Client VRAM gauge: rss over used. -/
def cli_vram_ratio (mi : ClientMemInfo) : ℚ :=
  if mi.vram_used > 0 then (mi.vram_rss : ℚ) / (mi.vram_used : ℚ) else 0

/-- C10: every memory gauge ratio is defined to be 0 when its denominator
is zero, so the displayed ratio is total and never divides by zero. -/
theorem gauge_ratio_zero_denominator :
    (∀ dm : DevMemInfo,
      (dm.smem_total = 0 → dev_smem_ratio dm = 0) ∧
      (dm.vram_total = 0 → dev_vram_ratio dm = 0)) ∧
    (∀ mi : ClientMemInfo,
      (mi.smem_used = 0 → cli_smem_ratio mi = 0) ∧
      (mi.vram_used = 0 → cli_vram_ratio mi = 0)) := by
  refine ⟨fun dm => ⟨?_, ?_⟩, fun mi => ⟨?_, ?_⟩⟩ <;> intro h <;>
    simp [dev_smem_ratio, dev_vram_ratio, cli_smem_ratio, cli_vram_ratio, h]

theorem gauge_ratio_zero_denominator_witness :
    dev_smem_ratio ⟨77, 0, 0, 0⟩ = 0 ∧ cli_vram_ratio ⟨0, 0, 0, 99⟩ = 0 :=
  ⟨(gauge_ratio_zero_denominator.1 ⟨77, 0, 0, 0⟩).1 rfl,
   (gauge_ratio_zero_denominator.2 ⟨0, 0, 0, 99⟩).2 rfl⟩
